import Mathlib

set_option maxRecDepth 10000

/-!
Verification of the generation-orchestration core of the jimeng repository.

The definitions below are shallow embeddings of the TypeScript source:
* `src/services/geminiService.ts` — retry wrapper (`safeGenerateContent`),
  response sanitizer (`cleanJsonString`) and the response-handling tails of
  `generateStoryboard` / `generatePromptsForGroup`;
* the application root component (`src/unnamed/part_000`) — the generation
  queue (`runGenerationQueue`), `handleConfirmStoryboard`,
  `handleRegenerateGroup`, `handleUpdatePromptData`;
* `src/components/PromptDisplay.tsx` — `saveEdit`.

JavaScript objects/records become Lean structures; the JS `Record<number, _>`
prompt mapping becomes a function `Nat → Option _`; asynchronous upstream
calls become oracles passed as explicit function arguments; thrown exceptions
become `Except`/`Option` values.  State that the React component mutates via
`set*` hooks is threaded explicitly, and the sequences of published
`BatchProgress` values and of upstream generation calls are returned as
traces so that properties about them can be stated.
-/

namespace Jimeng

/-! ## Upstream errors and the retry policy (src/services/geminiService.ts:114-146)

The caught JS error is modelled by the three observations the wrapper makes
on it: `error?.status`, `error?.code`, `error?.message`. -/

structure GenError where
  status : Option Nat
  code : Option Nat
  message : Option String
deriving DecidableEq

/-- `List.isPrefixOf`-based infix test on characters; models
`String.prototype.includes`. -/
def charsInfix (pat : List Char) : List Char → Bool
  | [] => pat.isEmpty
  | c :: cs => List.isPrefixOf pat (c :: cs) || charsInfix pat cs

/-- Models JS `s.includes(pat)`. -/
def strIncludes (s pat : String) : Bool :=
  charsInfix pat.toList s.toList

def s429 : String := "429"

def sQuota : String := "quota"

def sResourceExhausted : String := "RESOURCE_EXHAUSTED"

/-- The transient-error classification of `safeGenerateContent`
(geminiService.ts:125-132).  JS note: `error?.message && (...)` is false for
an empty message string, hence the explicit emptiness test. -/
def isQuotaError (e : GenError) : Bool :=
  e.status == some 429 || e.code == some 429 ||
    (match e.message with
     | some m => !(m == "") &&
         (strIncludes m s429 || strIncludes m sQuota || strIncludes m sResourceExhausted)
     | none => false)

def maxRetries : Nat := 3

/-- The initial backoff delay in milliseconds (`let delay = 2000`). -/
def initialDelayMs : Nat := 2000

/-- What one run of the retry wrapper produces: the value returned or the
error finally thrown, the number of attempts made, and the list of backoff
sleeps (in ms) performed, in order. -/
structure RetryOutcome (α : Type) where
  result : Except GenError α
  attempts : Nat
  sleeps : List Nat

/-- The `for (let i = 0; i < maxRetries + 1; i++)` loop of
`safeGenerateContent` (geminiService.ts:120-144).  `call j` is the outcome of
the `(j+1)`-th invocation of `ai.models.generateContent`.  The trailing
`throw new Error("API call failed after max retries")` of the source is
unreachable (the iteration with `i = maxRetries` always returns or throws),
so it needs no representation. -/
def safeGenAux {α : Type} (call : Nat → Except GenError α) (i delay : Nat) :
    RetryOutcome α :=
  match call i with
  | Except.ok a => ⟨Except.ok a, 1, []⟩
  | Except.error e =>
    if h : isQuotaError e = true ∧ i < maxRetries then
      let r := safeGenAux call (i + 1) (delay * 2)
      ⟨r.result, r.attempts + 1, delay :: r.sleeps⟩
    else
      ⟨Except.error e, 1, []⟩
termination_by maxRetries - i
decreasing_by
  have := h.2
  omega

/-- `safeGenerateContent` (geminiService.ts:114-146). -/
def safeGenerateContent {α : Type} (call : Nat → Except GenError α) :
    RetryOutcome α :=
  safeGenAux call 0 initialDelayMs

theorem safeGenAux_eq_ok {α : Type} {call : Nat → Except GenError α} {i : Nat}
    {a : α} (delay : Nat) (h : call i = Except.ok a) :
    safeGenAux call i delay = ⟨Except.ok a, 1, []⟩ := by
  rw [safeGenAux, h]

theorem safeGenAux_eq_err {α : Type} {call : Nat → Except GenError α} {i : Nat}
    {e : GenError} (delay : Nat) (h : call i = Except.error e) :
    safeGenAux call i delay =
      if isQuotaError e = true ∧ i < maxRetries then
        let r := safeGenAux call (i + 1) (delay * 2)
        ⟨r.result, r.attempts + 1, delay :: r.sleeps⟩
      else ⟨Except.error e, 1, []⟩ := by
  rw [safeGenAux, h]
  rfl

theorem geomSleeps (delay k : Nat) :
    delay :: (List.range k).map (fun t => delay * 2 * 2 ^ t) =
      (List.range (k + 1)).map (fun t => delay * 2 ^ t) := by
  rw [List.range_succ_eq_map, List.map_cons, List.map_map]
  simp only [List.cons.injEq]
  refine ⟨by simp, ?_⟩
  apply List.map_congr_left
  intro t _
  simp only [Function.comp_apply, pow_succ]
  ring

theorem safeGenAux_ok {α : Type} (call : Nat → Except GenError α) :
    ∀ (k i delay : Nat) (a : α), i + k ≤ maxRetries →
      (∀ j, j < k → ∃ e, call (i + j) = Except.error e ∧ isQuotaError e = true) →
      call (i + k) = Except.ok a →
      safeGenAux call i delay =
        ⟨Except.ok a, k + 1, (List.range k).map (fun t => delay * 2 ^ t)⟩ := by
  intro k
  induction k with
  | zero =>
    intro i delay a _ _ hok
    simp only [Nat.add_zero] at hok
    rw [safeGenAux_eq_ok delay hok]
    rfl
  | succ k ih =>
    intro i delay a hle hfail hok
    obtain ⟨e, he, hq⟩ := hfail 0 (Nat.succ_pos k)
    simp only [Nat.add_zero] at he
    have hilt : i < maxRetries := by omega
    rw [safeGenAux_eq_err delay he, if_pos ⟨hq, hilt⟩]
    have hrec := ih (i + 1) (delay * 2) a (by omega)
      (fun j hj => by
        obtain ⟨e2, he2, hq2⟩ := hfail (j + 1) (by omega)
        exact ⟨e2, by rw [show i + 1 + j = i + (j + 1) by omega]; exact he2, hq2⟩)
      (by rw [show i + 1 + k = i + (k + 1) by omega]; exact hok)
    simp only [hrec]
    rw [← geomSleeps delay k]

theorem safeGenAux_error {α : Type} (call : Nat → Except GenError α) :
    ∀ (k i delay : Nat) (e : GenError), i + k ≤ maxRetries →
      (∀ j, j < k → ∃ e2, call (i + j) = Except.error e2 ∧ isQuotaError e2 = true) →
      call (i + k) = Except.error e →
      (isQuotaError e = false ∨ i + k = maxRetries) →
      safeGenAux call i delay =
        ⟨Except.error e, k + 1, (List.range k).map (fun t => delay * 2 ^ t)⟩ := by
  intro k
  induction k with
  | zero =>
    intro i delay e _ _ herr hstop
    simp only [Nat.add_zero] at herr hstop
    rw [safeGenAux_eq_err delay herr, if_neg]
    · rfl
    · rintro ⟨h1, h2⟩
      rcases hstop with h | h
      · rw [h1] at h
        simp at h
      · omega
  | succ k ih =>
    intro i delay e hle hfail herr hstop
    obtain ⟨e0, he0, hq0⟩ := hfail 0 (Nat.succ_pos k)
    simp only [Nat.add_zero] at he0
    have hilt : i < maxRetries := by omega
    rw [safeGenAux_eq_err delay he0, if_pos ⟨hq0, hilt⟩]
    have hrec := ih (i + 1) (delay * 2) e (by omega)
      (fun j hj => by
        obtain ⟨e2, he2, hq2⟩ := hfail (j + 1) (by omega)
        exact ⟨e2, by rw [show i + 1 + j = i + (j + 1) by omega]; exact he2, hq2⟩)
      (by rw [show i + 1 + k = i + (k + 1) by omega]; exact herr)
      (by rcases hstop with h | h
          · exact Or.inl h
          · exact Or.inr (by omega))
    simp only [hrec]
    rw [← geomSleeps delay k]

theorem backoffSchedule_take (k : Nat) (hk : k ≤ 3) :
    (List.range k).map (fun t => initialDelayMs * 2 ^ t) =
      List.take k [2000, 4000, 8000] := by
  interval_cases k <;> rfl

/-- C1: wrapped by `safeGenerateContent`, a call that fails with a transient
capacity error (status/code 429 or a 429/quota/RESOURCE_EXHAUSTED signal in
the message) exactly `k ≤ 3` times and then succeeds returns the success
after exactly `k + 1` attempts with sleeps 2s, 4s, 8s before the respective
retries; a call whose first four attempts all fail transiently propagates
the fourth attempt's error after exactly 4 attempts; a non-transient error
(after any number of transient ones) propagates immediately with no further
retry. -/
theorem safeGenerateContent_retry_policy {α : Type} (call : Nat → Except GenError α) :
    (∀ (k : Nat) (a : α), k ≤ maxRetries →
      (∀ j, j < k → ∃ e, call j = Except.error e ∧ isQuotaError e = true) →
      call k = Except.ok a →
      safeGenerateContent call =
        ⟨Except.ok a, k + 1, List.take k [2000, 4000, 8000]⟩) ∧
    (∀ e : GenError,
      (∀ j, j < maxRetries → ∃ e2, call j = Except.error e2 ∧ isQuotaError e2 = true) →
      call maxRetries = Except.error e →
      safeGenerateContent call =
        ⟨Except.error e, maxRetries + 1, [2000, 4000, 8000]⟩) ∧
    (∀ (k : Nat) (e : GenError), k ≤ maxRetries →
      (∀ j, j < k → ∃ e2, call j = Except.error e2 ∧ isQuotaError e2 = true) →
      call k = Except.error e → isQuotaError e = false →
      safeGenerateContent call =
        ⟨Except.error e, k + 1, List.take k [2000, 4000, 8000]⟩) := by
  refine ⟨?_, ?_, ?_⟩
  · intro k a hk hfail hok
    have hk3 : k ≤ 3 := by simpa [maxRetries] using hk
    have h := safeGenAux_ok call k 0 initialDelayMs a (by omega)
      (fun j hj => by simpa using hfail j hj) (by simpa using hok)
    rw [safeGenerateContent, h, backoffSchedule_take k hk3]
  · intro e hfail herr
    have h := safeGenAux_error call maxRetries 0 initialDelayMs e (by omega)
      (fun j hj => by simpa using hfail j hj) (by simpa using herr)
      (Or.inr (by omega))
    rw [safeGenerateContent, h]
    rfl
  · intro k e hk hfail herr hnq
    have hk3 : k ≤ 3 := by simpa [maxRetries] using hk
    have h := safeGenAux_error call k 0 initialDelayMs e (by omega)
      (fun j hj => by simpa using hfail j hj) (by simpa using herr)
      (Or.inl hnq)
    rw [safeGenerateContent, h, backoffSchedule_take k hk3]

/-- A concrete upstream call for the retry-policy witness: two transient
(429) failures, then success. -/
def retryWitnessCall : Nat → Except GenError Nat :=
  fun i => if i < 2 then Except.error ⟨some 429, none, none⟩ else Except.ok 7

theorem safeGenerateContent_retry_policy_witness :
    safeGenerateContent retryWitnessCall =
      ⟨Except.ok 7, 3, [2000, 4000]⟩ := by
  have h := (safeGenerateContent_retry_policy retryWitnessCall).1 2 7 (by decide)
    (fun j hj => ⟨⟨some 429, none, none⟩,
      by simp only [retryWitnessCall, if_pos hj], by decide⟩)
    (by rfl)
  simpa using h

/-! ## Data model (src/types.ts) -/

structure Shot where
  id : Nat
  description : String
  voiceover : String
  movement : String
deriving DecidableEq

structure Group where
  id : Nat
  range : String
  narrative : String
deriving DecidableEq

structure AIPromptItem where
  name : String
  description : String
  prompt : String
deriving DecidableEq

structure StoryboardSettings where
  overview : String
  style : String
  characters : List AIPromptItem
  scenes : List AIPromptItem
deriving DecidableEq

structure StoryboardData where
  script : List Shot
  groups : List Group
  settings : StoryboardSettings
  rawResponse : String
deriving DecidableEq

structure ImagePrompts where
  shot : String
  subject : String
  environment : String
  lighting : String
  camera : String
  colorGrade : String
  style : String
  quality : String
deriving DecidableEq

structure PromptData where
  groupId : Nat
  imagePrompts : ImagePrompts
  cameraPrompts : String
  rawResponse : String
deriving DecidableEq

structure BatchProgress where
  current : Nat
  total : Nat
deriving DecidableEq

inductive AppState where
  | IDLE
  | GENERATING_STORYBOARD
  | REVIEW_STORYBOARD
  | GENERATING_PROMPTS
  | VIEW_PROMPTS
deriving DecidableEq

/-! ## The generation queue and its callers (src/unnamed/part_000)

The React component state relevant to the claims, threaded explicitly.
`prompts` models the JS `Record<number, PromptData>` (`undefined` = `none`). -/

structure QueueState where
  appState : AppState
  prompts : Nat → Option PromptData
  currentGroupId : Option Nat
  batchProgress : Option BatchProgress

/-- Functional update of the prompts mapping; models the spread
`{...prev, [id]: data}`. -/
def setPrompt (ps : Nat → Option PromptData) (gid : Nat) (d : PromptData) :
    Nat → Option PromptData :=
  fun k => if k = gid then some d else ps k

/-- The arguments of one `generatePromptsForGroup` invocation made by the
queue (part_000:174-180). -/
structure GenCall where
  groupId : Nat
  narrative : String
  shots : List Shot
  settings : StoryboardSettings
  model : String
deriving DecidableEq

/-- The call the queue makes for one group: `startIdx = (group.id - 1) * 4`
and `groupShots = storyboard.script.slice(startIdx, startIdx + 4)`
(part_000:171-180).  `(·.drop startIdx).take 4` equals `slice` for the
1-based ids the data model guarantees (for `id = 0` JS `slice(-4, 0)` would
differ from the `Nat`-truncated subtraction; the claims only concern
`id ≥ 1`). -/
def mkGenCall (sb : StoryboardData) (model : String) (g : Group) : GenCall :=
  ⟨g.id, g.narrative, (sb.script.drop ((g.id - 1) * 4)).take 4, sb.settings, model⟩

/-- The `for` loop of `runGenerationQueue` (part_000:164-196).  `gen` is the
oracle for `generatePromptsForGroup` (an `Except.error` covers any thrown
failure, including retry exhaustion and sanitizer parse failure).  Returns
the final state, the ordered list of `setBatchProgress` publications made by
the loop, and the ordered list of generation calls.  The unconditional
500 ms inter-item pause (line 195) affects no modelled observable. -/
def queueLoop (sb : StoryboardData) (model : String)
    (gen : GenCall → Except GenError PromptData) :
    List Group → QueueState → Nat → Nat →
      QueueState × List (Option BatchProgress) × List GenCall
  | [], s, _, _ => (s, [], [])
  | g :: rest, s, i, total =>
    let c := mkGenCall sb model g
    let s1 : QueueState := { s with currentGroupId := some g.id }
    let s2 : QueueState :=
      match gen c with
      | Except.ok d => { s1 with prompts := setPrompt s1.prompts g.id d }
      | Except.error _ => s1
    let s3 : QueueState := { s2 with batchProgress := some ⟨i + 1, total⟩ }
    let out := queueLoop sb model gen rest s3 (i + 1) total
    (out.1, some (⟨i + 1, total⟩ : BatchProgress) :: out.2.1, c :: out.2.2)

/-- `runGenerationQueue` (part_000:154-200): guard on a present storyboard,
enter `GENERATING_PROMPTS`, publish `{current: 0, total: N}`, run the loop,
then clear `batchProgress` and enter `VIEW_PROMPTS`. -/
def runGenerationQueue (storyboard : Option StoryboardData) (model : String)
    (gen : GenCall → Except GenError PromptData)
    (s : QueueState) (groupsToProcess : List Group) :
    QueueState × List (Option BatchProgress) × List GenCall :=
  match storyboard with
  | none => (s, [], [])
  | some sb =>
    let total := groupsToProcess.length
    let s0 : QueueState := { s with appState := AppState.GENERATING_PROMPTS,
                                    batchProgress := some ⟨0, total⟩ }
    let out := queueLoop sb model gen groupsToProcess s0 0 total
    ({ out.1 with batchProgress := none, appState := AppState.VIEW_PROMPTS },
     (some (⟨0, total⟩ : BatchProgress) :: out.2.1) ++ [none],
     out.2.2)

/-- JS truthiness of `currentGroupId` (`!currentGroupId` is true for `null`
and for `0`). -/
def jsFalsyId : Option Nat → Bool
  | none => true
  | some n => n == 0

/-- `handleConfirmStoryboard` (part_000:202-218): guard
`!storyboard?.groups.length`, switch to `VIEW_PROMPTS`, compute
`missingGroups = groups.filter(g => !prompts[g.id])`, run the queue on them
if non-empty, otherwise select the first group when none is selected. -/
def handleConfirmStoryboard (storyboard : Option StoryboardData) (model : String)
    (gen : GenCall → Except GenError PromptData) (s : QueueState) :
    QueueState × List (Option BatchProgress) × List GenCall :=
  match storyboard with
  | none => (s, [], [])
  | some sb =>
    if sb.groups.length = 0 then (s, [], [])
    else
      let s1 : QueueState := { s with appState := AppState.VIEW_PROMPTS }
      let missingGroups := sb.groups.filter (fun g => (s.prompts g.id).isNone)
      if 0 < missingGroups.length then
        runGenerationQueue (some sb) model gen s1 missingGroups
      else
        match sb.groups.head? with
        | some g0 =>
          if jsFalsyId s1.currentGroupId then
            ({ s1 with currentGroupId := some g0.id }, [], [])
          else (s1, [], [])
        | none => (s1, [], [])

/-- `handleRegenerateGroup` (part_000:230-237): find the group by id and run
the queue over the singleton list containing it. -/
def handleRegenerateGroup (storyboard : Option StoryboardData) (model : String)
    (gen : GenCall → Except GenError PromptData) (s : QueueState)
    (groupId : Nat) :
    QueueState × List (Option BatchProgress) × List GenCall :=
  match storyboard with
  | none => (s, [], [])
  | some sb =>
    match sb.groups.find? (fun g => g.id == groupId) with
    | none => (s, [], [])
    | some g => runGenerationQueue (some sb) model gen s [g]

theorem queueLoop_progress (sb : StoryboardData) (model : String)
    (gen : GenCall → Except GenError PromptData) :
    ∀ (gs : List Group) (s : QueueState) (i total : Nat),
      (queueLoop sb model gen gs s i total).2.1 =
        (List.range gs.length).map (fun j => some ⟨i + j + 1, total⟩) := by
  intro gs
  induction gs with
  | nil => intro s i total; rfl
  | cons g rest ih =>
    intro s i total
    rw [queueLoop]
    simp only [List.length_cons, ih, List.range_succ_eq_map, List.map_cons,
      List.map_map, List.cons.injEq]
    refine ⟨by simp, ?_⟩
    apply List.map_congr_left
    intro t _
    simp only [Function.comp_apply, Function.comp_def, Option.some.injEq,
      BatchProgress.mk.injEq]
    exact ⟨by omega, trivial⟩

theorem queueLoop_calls (sb : StoryboardData) (model : String)
    (gen : GenCall → Except GenError PromptData) :
    ∀ (gs : List Group) (s : QueueState) (i total : Nat),
      (queueLoop sb model gen gs s i total).2.2 = gs.map (mkGenCall sb model) := by
  intro gs
  induction gs with
  | nil => intro s i total; rfl
  | cons g rest ih =>
    intro s i total
    rw [queueLoop]
    simp only [List.map_cons, ih]

theorem queueLoop_appState (sb : StoryboardData) (model : String)
    (gen : GenCall → Except GenError PromptData) :
    ∀ (gs : List Group) (s : QueueState) (i total : Nat),
      (queueLoop sb model gen gs s i total).1.appState = s.appState := by
  intro gs
  induction gs with
  | nil => intro s i total; rfl
  | cons g rest ih =>
    intro s i total
    rw [queueLoop]
    simp only [ih]
    cases gen (mkGenCall sb model g) <;> rfl

theorem queueLoop_prompts_frame (sb : StoryboardData) (model : String)
    (gen : GenCall → Except GenError PromptData) :
    ∀ (gs : List Group) (s : QueueState) (i total : Nat) (gid : Nat),
      (∀ g ∈ gs, g.id = gid → ∃ e, gen (mkGenCall sb model g) = Except.error e) →
      (queueLoop sb model gen gs s i total).1.prompts gid = s.prompts gid := by
  intro gs
  induction gs with
  | nil => intro s i total gid _; rfl
  | cons g rest ih =>
    intro s i total gid hfail
    have hrest := fun g2 hg2 hid => hfail g2 (List.mem_cons_of_mem g hg2) hid
    rcases hgen : gen (mkGenCall sb model g) with e | d
    · rw [queueLoop]
      simp only [hgen]
      exact ih _ _ _ _ hrest
    · rw [queueLoop]
      simp only [hgen]
      rw [ih _ _ _ _ hrest]
      show setPrompt s.prompts g.id d gid = s.prompts gid
      rw [setPrompt, if_neg]
      intro hrefl
      rcases hfail g (List.mem_cons_self g rest) hrefl.symm with ⟨e, he⟩
      rw [hgen] at he
      exact Except.noConfusion he

theorem progressTrace_cons (N : Nat) :
    some (⟨0, N⟩ : BatchProgress) ::
        (List.range N).map (fun j => some (⟨0 + j + 1, N⟩ : BatchProgress)) =
      (List.range (N + 1)).map (fun j => some ⟨j, N⟩) := by
  rw [List.range_succ_eq_map, List.map_cons, List.map_map]
  refine congrArg₂ _ rfl ?_
  apply List.map_congr_left
  intro t _
  simp only [Function.comp_apply, Option.some.injEq, BatchProgress.mk.injEq]
  exact ⟨by omega, trivial⟩

theorem runQueue_progress (sb : StoryboardData) (model : String)
    (gen : GenCall → Except GenError PromptData) (s : QueueState)
    (work : List Group) :
    (runGenerationQueue (some sb) model gen s work).2.1 =
      (List.range (work.length + 1)).map (fun j => some ⟨j, work.length⟩)
        ++ [none] := by
  rw [runGenerationQueue]
  simp only [queueLoop_progress]
  rw [progressTrace_cons]

theorem runQueue_calls (sb : StoryboardData) (model : String)
    (gen : GenCall → Except GenError PromptData) (s : QueueState)
    (work : List Group) :
    (runGenerationQueue (some sb) model gen s work).2.2 =
      work.map (mkGenCall sb model) := by
  rw [runGenerationQueue]
  simp only [queueLoop_calls]

theorem runQueue_prompts_frame (sb : StoryboardData) (model : String)
    (gen : GenCall → Except GenError PromptData) (s : QueueState)
    (work : List Group) (gid : Nat)
    (hfail : ∀ g ∈ work, g.id = gid →
      ∃ e, gen (mkGenCall sb model g) = Except.error e) :
    (runGenerationQueue (some sb) model gen s work).1.prompts gid =
      s.prompts gid := by
  exact queueLoop_prompts_frame sb model gen work _ 0 work.length gid hfail

/-- C2: for a work list of size `N`, the queue publishes BatchProgress as
`{current: 0, total: N}` at start, then `{current: i + 1, total: N}` after
each item's attempt — so `current` rises monotonically from 0 to `N` in
steps of one while `total` stays `N` — and finally publishes absence
(`null`), which is also the final stored value, regardless of per-item
success or failure. -/
theorem generationQueue_progress_lifecycle (sb : StoryboardData) (model : String)
    (gen : GenCall → Except GenError PromptData) (s : QueueState)
    (work : List Group) :
    (runGenerationQueue (some sb) model gen s work).2.1 =
      (List.range (work.length + 1)).map (fun j => some ⟨j, work.length⟩)
        ++ [none]
    ∧ (runGenerationQueue (some sb) model gen s work).1.batchProgress = none := by
  exact ⟨runQueue_progress sb model gen s work, rfl⟩

/-- C3: per-item failures are isolated: the loop makes exactly one
generation call per work item whatever the outcomes, the run always ends in
the prompt-review phase (`VIEW_PROMPTS`), and a group all of whose attempts
fail keeps its previous (absent) entry in the prompt mapping. -/
theorem generationQueue_isolates_failures (sb : StoryboardData) (model : String)
    (gen : GenCall → Except GenError PromptData) (s : QueueState)
    (work : List Group) (gid : Nat)
    (hfail : ∀ g ∈ work, g.id = gid →
      ∃ e, gen (mkGenCall sb model g) = Except.error e) :
    (runGenerationQueue (some sb) model gen s work).2.2.length = work.length
    ∧ (runGenerationQueue (some sb) model gen s work).1.appState =
        AppState.VIEW_PROMPTS
    ∧ (runGenerationQueue (some sb) model gen s work).1.prompts gid =
        s.prompts gid := by
  refine ⟨?_, rfl, runQueue_prompts_frame sb model gen s work gid hfail⟩
  rw [runQueue_calls]
  exact List.length_map work (mkGenCall sb model)

def modelFlash : String := "gemini-3-flash-preview"

def range14 : String := "1-4"

def range58 : String := "5-8"

def emptySettings : StoryboardSettings := ⟨"", "", [], []⟩

def witnessShot (n : Nat) : Shot := ⟨n, "", "", ""⟩

def witnessStoryboard : StoryboardData :=
  { script := (List.range 8).map (fun n => witnessShot (n + 1)),
    groups := [⟨1, range14, ""⟩, ⟨2, range58, ""⟩],
    settings := emptySettings,
    rawResponse := "" }

def initialQueueState : QueueState :=
  ⟨AppState.VIEW_PROMPTS, fun _ => none, none, none⟩

def alwaysFailGen : GenCall → Except GenError PromptData :=
  fun _ => Except.error ⟨none, none, none⟩

theorem generationQueue_isolates_failures_witness :
    (runGenerationQueue (some witnessStoryboard) modelFlash alwaysFailGen
        initialQueueState witnessStoryboard.groups).2.2.length = 2
    ∧ (runGenerationQueue (some witnessStoryboard) modelFlash alwaysFailGen
        initialQueueState witnessStoryboard.groups).1.appState =
          AppState.VIEW_PROMPTS
    ∧ (runGenerationQueue (some witnessStoryboard) modelFlash alwaysFailGen
        initialQueueState witnessStoryboard.groups).1.prompts 1 = none := by
  have h := generationQueue_isolates_failures witnessStoryboard modelFlash
    alwaysFailGen initialQueueState witnessStoryboard.groups 1
    (fun g _ _ => ⟨⟨none, none, none⟩, rfl⟩)
  exact ⟨by rw [h.1]; rfl, h.2.1, h.2.2⟩

/-- C6: the shots handed to the prompt-generation call for a group with
1-based id are exactly the script elements at zero-based indices
`[(id-1)*4, (id-1)*4 + 4)` — element `j < 4` of the passed list is the
script element at index `(id-1)*4 + j`, and there is no element at `j ≥ 4`.
-/
theorem generationQueue_shot_chunks (sb : StoryboardData) (model : String)
    (gen : GenCall → Except GenError PromptData) (s : QueueState)
    (work : List Group) (i : Nat) (hi : i < work.length)
    (hid : 1 ≤ (work.get ⟨i, hi⟩).id) :
    ∃ hc : i < (runGenerationQueue (some sb) model gen s work).2.2.length,
      ((runGenerationQueue (some sb) model gen s work).2.2.get ⟨i, hc⟩).groupId
          = (work.get ⟨i, hi⟩).id
      ∧ ∀ j : Nat,
          ((runGenerationQueue (some sb) model gen s work).2.2.get ⟨i, hc⟩).shots[j]?
            = if j < 4 then
                sb.script[((work.get ⟨i, hi⟩).id - 1) * 4 + j]?
              else none := by
  have hcalls := runQueue_calls sb model gen s work
  have hc : i < (runGenerationQueue (some sb) model gen s work).2.2.length := by
    rw [hcalls, List.length_map]
    exact hi
  refine ⟨hc, ?_, ?_⟩
  · have : (runGenerationQueue (some sb) model gen s work).2.2.get ⟨i, hc⟩ =
        mkGenCall sb model (work.get ⟨i, hi⟩) := by
      simp only [List.get_eq_getElem] at *
      rw [List.getElem_of_eq hcalls, List.getElem_map]
    rw [this]
    rfl
  · intro j
    have hcall : (runGenerationQueue (some sb) model gen s work).2.2.get ⟨i, hc⟩ =
        mkGenCall sb model (work.get ⟨i, hi⟩) := by
      simp only [List.get_eq_getElem] at *
      rw [List.getElem_of_eq hcalls, List.getElem_map]
    rw [hcall]
    show ((sb.script.drop (((work.get ⟨i, hi⟩).id - 1) * 4)).take 4)[j]? = _
    by_cases hj : j < 4
    · rw [if_pos hj, List.getElem?_take, if_pos hj, List.getElem?_drop]
    · rw [if_neg hj]
      apply List.getElem?_eq_none
      have := List.length_take 4 (sb.script.drop (((work.get ⟨i, hi⟩).id - 1) * 4))
      omega

theorem generationQueue_shot_chunks_witness :
    ∃ hc : 1 < (runGenerationQueue (some witnessStoryboard) modelFlash
        alwaysFailGen initialQueueState witnessStoryboard.groups).2.2.length,
      ((runGenerationQueue (some witnessStoryboard) modelFlash alwaysFailGen
          initialQueueState witnessStoryboard.groups).2.2.get ⟨1, hc⟩).groupId
          = (witnessStoryboard.groups.get ⟨1, by decide⟩).id
      ∧ ∀ j : Nat,
          ((runGenerationQueue (some witnessStoryboard) modelFlash alwaysFailGen
              initialQueueState witnessStoryboard.groups).2.2.get ⟨1, hc⟩).shots[j]?
            = if j < 4 then
                witnessStoryboard.script[((witnessStoryboard.groups.get
                  ⟨1, by decide⟩).id - 1) * 4 + j]?
              else none := by
  exact generationQueue_shot_chunks witnessStoryboard modelFlash alwaysFailGen
    initialQueueState witnessStoryboard.groups 1 (by decide) (by decide)

theorem runQueue_singleton_prompts (sb : StoryboardData) (model : String)
    (gen : GenCall → Except GenError PromptData) (s : QueueState) (g : Group) :
    (runGenerationQueue (some sb) model gen s [g]).1.prompts =
      (match gen (mkGenCall sb model g) with
       | Except.ok d => setPrompt s.prompts g.id d
       | Except.error _ => s.prompts) := by
  rcases hgen : gen (mkGenCall sb model g) with e | d <;>
    simp only [runGenerationQueue, queueLoop, hgen]

/-- C5: confirming the reviewed script computes the groups with no existing
prompt result; when that set is non-empty a queue run starts over exactly
that set (those calls, in order, and a progress trace sized to it); when it
is empty the phase goes straight to prompt review (`VIEW_PROMPTS`) with no
generation call, no BatchProgress publication ever, and a previously
selected (non-zero) group selection unchanged. -/
theorem handleConfirmStoryboard_spec (sb : StoryboardData) (model : String)
    (gen : GenCall → Except GenError PromptData) (s : QueueState)
    (hne : sb.groups.length ≠ 0) :
    (sb.groups.filter (fun g => (s.prompts g.id).isNone) ≠ [] →
      (handleConfirmStoryboard (some sb) model gen s).2.2 =
        (sb.groups.filter (fun g => (s.prompts g.id).isNone)).map
          (mkGenCall sb model)
      ∧ (handleConfirmStoryboard (some sb) model gen s).2.1 =
          (List.range
              ((sb.groups.filter (fun g => (s.prompts g.id).isNone)).length + 1)).map
            (fun j =>
              some ⟨j, (sb.groups.filter (fun g => (s.prompts g.id).isNone)).length⟩)
            ++ [none])
    ∧ (sb.groups.filter (fun g => (s.prompts g.id).isNone) = [] →
      (handleConfirmStoryboard (some sb) model gen s).1.appState =
          AppState.VIEW_PROMPTS
      ∧ (handleConfirmStoryboard (some sb) model gen s).2.1 = []
      ∧ (handleConfirmStoryboard (some sb) model gen s).2.2 = []
      ∧ ∀ c, s.currentGroupId = some c → c ≠ 0 →
          (handleConfirmStoryboard (some sb) model gen s).1.currentGroupId =
            some c) := by
  constructor
  · intro hmiss
    have hpos : 0 < (sb.groups.filter (fun g => (s.prompts g.id).isNone)).length :=
      List.length_pos.mpr hmiss
    have heq : handleConfirmStoryboard (some sb) model gen s =
        runGenerationQueue (some sb) model gen
          { s with appState := AppState.VIEW_PROMPTS }
          (sb.groups.filter (fun g => (s.prompts g.id).isNone)) := by
      rw [handleConfirmStoryboard]
      rw [if_neg hne, if_pos hpos]
    rw [heq]
    exact ⟨runQueue_calls sb model gen _ _, runQueue_progress sb model gen _ _⟩
  · intro hmiss
    rcases hh : sb.groups.head? with _ | g0
    · exact absurd (List.head?_eq_none_iff.mp hh)
        (by intro h; rw [h] at hne; exact hne rfl)
    · by_cases hfal : jsFalsyId s.currentGroupId = true
      · have heq : handleConfirmStoryboard (some sb) model gen s =
            ({ s with appState := AppState.VIEW_PROMPTS,
                      currentGroupId := some g0.id }, [], []) := by
          rw [handleConfirmStoryboard]
          rw [if_neg hne]
          simp only [hmiss, List.length_nil, Nat.lt_irrefl, if_false, hh]
          rw [if_pos hfal]
        rw [heq]
        refine ⟨rfl, rfl, rfl, ?_⟩
        intro c hcur hc0
        rw [hcur] at hfal
        simp only [jsFalsyId, beq_iff_eq] at hfal
        exact absurd hfal hc0
      · have heq : handleConfirmStoryboard (some sb) model gen s =
            ({ s with appState := AppState.VIEW_PROMPTS }, [], []) := by
          rw [handleConfirmStoryboard]
          rw [if_neg hne]
          simp only [hmiss, List.length_nil, Nat.lt_irrefl, if_false, hh]
          rw [if_neg hfal]
        rw [heq]
        refine ⟨rfl, rfl, rfl, ?_⟩
        intro c hcur _
        exact hcur

def blankImagePrompts : ImagePrompts := ⟨"", "", "", "", "", "", "", ""⟩

def samplePromptData : PromptData := ⟨1, blankImagePrompts, "", ""⟩

def confirmedState : QueueState :=
  ⟨AppState.REVIEW_STORYBOARD, fun _ => some samplePromptData, some 2, none⟩

theorem handleConfirmStoryboard_spec_witness :
    (handleConfirmStoryboard (some witnessStoryboard) modelFlash alwaysFailGen
        confirmedState).1.appState = AppState.VIEW_PROMPTS
    ∧ (handleConfirmStoryboard (some witnessStoryboard) modelFlash alwaysFailGen
        confirmedState).2.1 = []
    ∧ (handleConfirmStoryboard (some witnessStoryboard) modelFlash alwaysFailGen
        confirmedState).2.2 = []
    ∧ (handleConfirmStoryboard (some witnessStoryboard) modelFlash alwaysFailGen
        confirmedState).1.currentGroupId = some 2 := by
  have h := (handleConfirmStoryboard_spec witnessStoryboard modelFlash
    alwaysFailGen confirmedState (by decide)).2 (by rfl)
  exact ⟨h.1, h.2.1, h.2.2.1, h.2.2.2 2 rfl (by decide)⟩

/-- C8: regenerating one group runs the queue over the singleton work list
containing exactly that group, leaves every other group id's prompt entry
unchanged, stores a successful result under the group's id, and on failure
leaves even that id's entry unchanged. -/
theorem handleRegenerateGroup_spec (sb : StoryboardData) (model : String)
    (gen : GenCall → Except GenError PromptData) (s : QueueState)
    (groupId : Nat) (g : Group)
    (hfind : sb.groups.find? (fun g2 => g2.id == groupId) = some g) :
    (handleRegenerateGroup (some sb) model gen s groupId).2.2 =
        [mkGenCall sb model g]
    ∧ (∀ k, k ≠ groupId →
        (handleRegenerateGroup (some sb) model gen s groupId).1.prompts k =
          s.prompts k)
    ∧ (∀ d, gen (mkGenCall sb model g) = Except.ok d →
        (handleRegenerateGroup (some sb) model gen s groupId).1.prompts groupId =
          some d)
    ∧ (∀ e, gen (mkGenCall sb model g) = Except.error e →
        (handleRegenerateGroup (some sb) model gen s groupId).1.prompts groupId =
          s.prompts groupId) := by
  have hp : (fun g2 : Group => g2.id == groupId) g = true :=
    @List.find?_some Group (fun g2 : Group => g2.id == groupId) g sb.groups hfind
  have hid : g.id = groupId := eq_of_beq hp
  have heq : handleRegenerateGroup (some sb) model gen s groupId =
      runGenerationQueue (some sb) model gen s [g] := by
    rw [handleRegenerateGroup, hfind]
  rw [heq]
  refine ⟨runQueue_calls sb model gen s [g], ?_, ?_, ?_⟩
  · intro k hk
    rw [runQueue_singleton_prompts]
    rcases hgen : gen (mkGenCall sb model g) with e | d
    · rfl
    · show setPrompt s.prompts g.id d k = s.prompts k
      rw [setPrompt, if_neg (by rw [hid]; exact hk)]
  · intro d hgen
    rw [runQueue_singleton_prompts, hgen]
    show setPrompt s.prompts g.id d groupId = some d
    rw [setPrompt, if_pos hid.symm]
  · intro e hgen
    rw [runQueue_singleton_prompts, hgen]

def okPromptData : PromptData := ⟨2, blankImagePrompts, "", ""⟩

def okGen : GenCall → Except GenError PromptData :=
  fun _ => Except.ok okPromptData

theorem handleRegenerateGroup_spec_witness :
    (handleRegenerateGroup (some witnessStoryboard) modelFlash okGen
        confirmedState 2).2.2 =
      [mkGenCall witnessStoryboard modelFlash ⟨2, range58, ""⟩]
    ∧ (handleRegenerateGroup (some witnessStoryboard) modelFlash okGen
        confirmedState 2).1.prompts 1 = some samplePromptData
    ∧ (handleRegenerateGroup (some witnessStoryboard) modelFlash okGen
        confirmedState 2).1.prompts 2 = some okPromptData := by
  have h := handleRegenerateGroup_spec witnessStoryboard modelFlash okGen
    confirmedState 2 ⟨2, range58, ""⟩ (by rfl)
  exact ⟨h.1, h.2.1 1 (by decide), h.2.2.1 okPromptData rfl⟩

/-! ## Manual single-field prompt edits
(src/components/PromptDisplay.tsx:87-97 and part_000:141-149) -/

/-- The keys of the fixed `imagePrompts` record that the editor can target.
-/
inductive ImageKey where
  | shot
  | subject
  | environment
  | lighting
  | camera
  | colorGrade
  | style
  | quality
deriving DecidableEq

def getImageField (p : ImagePrompts) : ImageKey → String
  | ImageKey.shot => p.shot
  | ImageKey.subject => p.subject
  | ImageKey.environment => p.environment
  | ImageKey.lighting => p.lighting
  | ImageKey.camera => p.camera
  | ImageKey.colorGrade => p.colorGrade
  | ImageKey.style => p.style
  | ImageKey.quality => p.quality

/-- The spread `{...currentPrompt.imagePrompts, [key]: editValue}` of
`saveEdit` (PromptDisplay.tsx:90-93), on the full fixed-key record. -/
def setImageField (p : ImagePrompts) (k : ImageKey) (v : String) : ImagePrompts :=
  match k with
  | ImageKey.shot => { p with shot := v }
  | ImageKey.subject => { p with subject := v }
  | ImageKey.environment => { p with environment := v }
  | ImageKey.lighting => { p with lighting := v }
  | ImageKey.camera => { p with camera := v }
  | ImageKey.colorGrade => { p with colorGrade := v }
  | ImageKey.style => { p with style := v }
  | ImageKey.quality => { p with quality := v }

/-- `handleUpdatePromptData` (part_000:141-149):
`{...prev, [groupId]: {...prev[groupId], imagePrompts: newImagePrompts}}`.
When the entry exists, the inner spread keeps `groupId`, `cameraPrompts` and
`rawResponse` and replaces `imagePrompts`.  (If the entry were absent the JS
spread of `undefined` would store a field-incomplete object — unreachable
from `saveEdit`, which is guarded by `currentPrompt` being present; the
model keeps the entry absent in that case.) -/
def handleUpdatePromptData (prompts : Nat → Option PromptData) (groupId : Nat)
    (newImagePrompts : ImagePrompts) : Nat → Option PromptData :=
  fun k =>
    if k = groupId then
      match prompts groupId with
      | some p => some { p with imagePrompts := newImagePrompts }
      | none => none
    else prompts k

/-- `saveEdit` (PromptDisplay.tsx:87-97): build the updated image prompts by
replacing one key, then delegate to `handleUpdatePromptData` (the
component's `onUpdatePrompt`). -/
def saveEdit (prompts : Nat → Option PromptData) (currentGroupId : Nat)
    (currentPrompt : PromptData) (key : ImageKey) (editValue : String) :
    Nat → Option PromptData :=
  handleUpdatePromptData prompts currentGroupId
    (setImageField currentPrompt.imagePrompts key editValue)

/-- C9: a single-field manual edit replaces exactly that field: every other
`imagePrompts` field, the `cameraPrompts` text and the `groupId` of the
edited group's PromptResult are unchanged, and every other group's entry in
the mapping is untouched. -/
theorem saveEdit_single_field_merge (prompts : Nat → Option PromptData)
    (gid : Nat) (cur : PromptData) (k : ImageKey) (v : String)
    (hcur : prompts gid = some cur) :
    (∀ k2 : ImageKey, k2 ≠ k →
      getImageField (setImageField cur.imagePrompts k v) k2 =
        getImageField cur.imagePrompts k2)
    ∧ saveEdit prompts gid cur k v gid =
        some { cur with imagePrompts := setImageField cur.imagePrompts k v }
    ∧ (saveEdit prompts gid cur k v gid).map PromptData.cameraPrompts =
        some cur.cameraPrompts
    ∧ (saveEdit prompts gid cur k v gid).map PromptData.groupId =
        some cur.groupId
    ∧ ∀ k2 : Nat, k2 ≠ gid → saveEdit prompts gid cur k v k2 = prompts k2 := by
  have hsave : saveEdit prompts gid cur k v gid =
      some { cur with imagePrompts := setImageField cur.imagePrompts k v } := by
    simp only [saveEdit, handleUpdatePromptData, hcur, eq_self_iff_true,
      ite_true]
  refine ⟨?_, hsave, ?_, ?_, ?_⟩
  · intro k2 hk2
    cases k <;> cases k2 <;> first
      | exact absurd rfl hk2
      | rfl
  · rw [hsave]
    rfl
  · rw [hsave]
    rfl
  · intro k2 hk2
    rw [saveEdit, handleUpdatePromptData]
    simp only [if_neg hk2]

theorem saveEdit_single_field_merge_witness :
    (getImageField
        (setImageField samplePromptData.imagePrompts ImageKey.lighting range14)
        ImageKey.camera =
      getImageField samplePromptData.imagePrompts ImageKey.camera)
    ∧ saveEdit confirmedState.prompts 1 samplePromptData ImageKey.lighting
        range14 1 =
      some { samplePromptData with
             imagePrompts :=
               setImageField samplePromptData.imagePrompts ImageKey.lighting
                 range14 }
    ∧ saveEdit confirmedState.prompts 1 samplePromptData ImageKey.lighting
        range14 3 = some samplePromptData := by
  have h := saveEdit_single_field_merge confirmedState.prompts 1
    samplePromptData ImageKey.lighting range14 rfl
  exact ⟨h.1 ImageKey.camera (by decide), h.2.1, h.2.2.2.2 3 (by decide)⟩

/-! ## The response sanitizer (src/services/geminiService.ts:104-112)

Strings are modelled as `List Char`.  `trimChars` models
`String.prototype.trim` (restricted to the ASCII whitespace of
`Char.isWhitespace`, which covers every character the claims involve). -/

def backquote : Char := ("`".toList).headD ' '

def fenceChars : List Char := [backquote, backquote, backquote]

def jsonTagChars : List Char := ['j', 's', 'o', 'n']

def lcurly : Char := '\x7b'

def rcurly : Char := '\x7d'

def emptyObjChars : List Char := [lcurly, rcurly]

def trimChars (s : List Char) : List Char :=
  ((s.dropWhile Char.isWhitespace).reverse.dropWhile Char.isWhitespace).reverse

/-- `cleanJsonString` (geminiService.ts:104-112): empty input becomes the
two-character empty-object text; otherwise trim, and when the trimmed text
starts with a fence, drop the leading fence (with an optional
case-insensitive `json` tag, per the regex `^` + fence + `(json)?` with the
`i` flag) and a trailing fence when present (regex fence + `$`). -/
def cleanJsonString (text : List Char) : List Char :=
  if text = [] then emptyObjChars
  else
    let clean := trimChars text
    if List.isPrefixOf fenceChars clean then
      let c0 := clean.drop 3
      let c1 :=
        if (c0.take 4).map Char.toLower = jsonTagChars then c0.drop 4 else c0
      if List.isSuffixOf fenceChars c1 then c1.take (c1.length - 3) else c1
    else clean

/-! ## A model of `JSON.parse` and of structured payloads

The source calls the JS builtin `JSON.parse` on the sanitized text.  The
model below implements a JSON value type, a canonical renderer (used to
quantify over "valid structured payloads"), and a fuel-based
recursive-descent parser.  The parser is restricted to integer numerals and
to the single-character escapes (no `\uXXXX`, no float/exponent forms); the
claims use it only on concrete object payloads and by congruence on equal
sanitized strings, where this restriction is irrelevant. -/

inductive Json where
  | null : Json
  | bool : Bool → Json
  | num : Int → Json
  | str : String → Json
  | arr : List Json → Json
  | obj : List (String × Json) → Json

def digitChar (n : Nat) : Char := Char.ofNat (48 + n)

def natDigits (n : Nat) : List Char :=
  if h : n < 10 then [digitChar n]
  else natDigits (n / 10) ++ [digitChar (n % 10)]
termination_by n
decreasing_by exact Nat.div_lt_self (by omega) (by omega)

def intChars (i : Int) : List Char :=
  if i < 0 then '-' :: natDigits i.natAbs else natDigits i.natAbs

def escapeChars : List Char → List Char
  | [] => []
  | c :: cs =>
    (if c = '\"' then ['\\', '\"']
     else if c = '\\' then ['\\', '\\']
     else [c]) ++ escapeChars cs

def renderString (s : String) : List Char :=
  '\"' :: (escapeChars s.toList ++ ['\"'])

mutual

def renderJson : Json → List Char
  | Json.null => ['n', 'u', 'l', 'l']
  | Json.bool true => ['t', 'r', 'u', 'e']
  | Json.bool false => ['f', 'a', 'l', 's', 'e']
  | Json.num i => intChars i
  | Json.str s => renderString s
  | Json.arr xs => '[' :: (renderElems xs ++ [']'])
  | Json.obj fs => lcurly :: (renderFields fs ++ [rcurly])

def renderElems : List Json → List Char
  | [] => []
  | [x] => renderJson x
  | x :: y :: xs => renderJson x ++ ',' :: renderElems (y :: xs)

def renderFields : List (String × Json) → List Char
  | [] => []
  | [(k, v)] => renderString k ++ ':' :: renderJson v
  | (k, v) :: f2 :: fs =>
    renderString k ++ ':' :: renderJson v ++ ',' :: renderFields (f2 :: fs)

end

def skipWs (s : List Char) : List Char := s.dropWhile Char.isWhitespace

def unescapeChar (c : Char) : Option Char :=
  if c = '\"' then some '\"'
  else if c = '\\' then some '\\'
  else if c = '/' then some '/'
  else if c = 'n' then some '\n'
  else if c = 't' then some '\t'
  else if c = 'r' then some '\r'
  else if c = 'b' then some (Char.ofNat 8)
  else if c = 'f' then some (Char.ofNat 12)
  else none

def parseStringBody (acc : List Char) : List Char → Option (String × List Char)
  | [] => none
  | c :: rest =>
    if c = '\"' then some (String.mk acc.reverse, rest)
    else if c = '\\' then
      match rest with
      | [] => none
      | e :: rest2 =>
        match unescapeChar e with
        | some u => parseStringBody (u :: acc) rest2
        | none => none
    else parseStringBody (c :: acc) rest

def digitsToNat (ds : List Char) : Nat :=
  ds.foldl (fun a c => a * 10 + (c.toNat - 48)) 0

def parseNumber (s : List Char) : Option (Json × List Char) :=
  match s with
  | [] => none
  | c :: rest =>
    let s1 := if c = '-' then rest else s
    let ds := s1.takeWhile Char.isDigit
    let rest2 := s1.dropWhile Char.isDigit
    if ds = [] then none
    else
      some (Json.num (if c = '-' then -(digitsToNat ds : Int)
                      else (digitsToNat ds : Int)), rest2)

mutual

def parseValue : Nat → List Char → Option (Json × List Char)
  | 0, _ => none
  | fuel + 1, s0 =>
    let s := skipWs s0
    if List.isPrefixOf ['n', 'u', 'l', 'l'] s then some (Json.null, s.drop 4)
    else if List.isPrefixOf ['t', 'r', 'u', 'e'] s then
      some (Json.bool true, s.drop 4)
    else if List.isPrefixOf ['f', 'a', 'l', 's', 'e'] s then
      some (Json.bool false, s.drop 5)
    else
      match s with
      | [] => none
      | c :: rest =>
        if c = '\"' then
          match parseStringBody [] rest with
          | some (str, r) => some (Json.str str, r)
          | none => none
        else if c = '-' || c.isDigit then parseNumber s
        else if c = '[' then parseElems fuel rest
        else if c = lcurly then parseFields fuel rest
        else none

def parseElems : Nat → List Char → Option (Json × List Char)
  | 0, _ => none
  | fuel + 1, s0 =>
    match skipWs s0 with
    | ']' :: rest => some (Json.arr [], rest)
    | s =>
      match parseValue fuel s with
      | some (v, r) => parseElemsTail fuel [v] r
      | none => none

def parseElemsTail : Nat → List Json → List Char → Option (Json × List Char)
  | 0, _, _ => none
  | fuel + 1, acc, r =>
    match skipWs r with
    | ',' :: rest =>
      match parseValue fuel rest with
      | some (v, r2) => parseElemsTail fuel (acc ++ [v]) r2
      | none => none
    | ']' :: rest => some (Json.arr acc, rest)
    | _ => none

def parseFields : Nat → List Char → Option (Json × List Char)
  | 0, _ => none
  | fuel + 1, s0 =>
    match skipWs s0 with
    | '\x7d' :: rest => some (Json.obj [], rest)
    | '\"' :: rest =>
      match parseStringBody [] rest with
      | some (k, r) =>
        match skipWs r with
        | ':' :: r2 =>
          match parseValue fuel r2 with
          | some (v, r3) => parseFieldsTail fuel [(k, v)] r3
          | none => none
        | _ => none
      | none => none
    | _ => none

def parseFieldsTail :
    Nat → List (String × Json) → List Char → Option (Json × List Char)
  | 0, _, _ => none
  | fuel + 1, acc, r =>
    match skipWs r with
    | ',' :: rest =>
      match skipWs rest with
      | '\"' :: rest2 =>
        match parseStringBody [] rest2 with
        | some (k, r2) =>
          match skipWs r2 with
          | ':' :: r3 =>
            match parseValue fuel r3 with
            | some (v, r4) => parseFieldsTail fuel (acc ++ [(k, v)]) r4
            | none => none
          | _ => none
        | none => none
      | _ => none
    | '\x7d' :: rest => some (Json.obj acc, rest)
    | _ => none

end

/-- The model of `JSON.parse`: parse one value and require only trailing
whitespace after it; `none` models a thrown `SyntaxError`. -/
def parseJson (s : List Char) : Option Json :=
  match parseValue (2 * s.length + 4) s with
  | some (v, rest) => if skipWs rest = [] then some v else none
  | none => none

theorem trimChars_sandwich (core ws1 ws2 : List Char) (c d : Char)
    (tc : List Char) (hcore : core = c :: tc) (hch : ¬ c.isWhitespace)
    (hlast : core.getLast? = some d) (hdh : ¬ d.isWhitespace)
    (h1 : ∀ x ∈ ws1, x.isWhitespace) (h2 : ∀ x ∈ ws2, x.isWhitespace) :
    trimChars (ws1 ++ core ++ ws2) = core := by
  rw [trimChars, List.append_assoc, List.dropWhile_append_of_pos h1]
  have hcw : (core ++ ws2).dropWhile Char.isWhitespace = core ++ ws2 := by
    rw [hcore, List.cons_append, List.dropWhile_cons_of_neg hch]
  rw [hcw, List.reverse_append]
  have hw2r : ∀ x ∈ ws2.reverse, Char.isWhitespace x := by
    intro x hx
    exact h2 x (List.mem_reverse.mp hx)
  rw [List.dropWhile_append_of_pos hw2r]
  have hrevh : core.reverse.head? = some d := by
    rw [List.head?_reverse, hlast]
  rcases hrev : core.reverse with _ | ⟨x, xs⟩
  · rw [hrev] at hrevh
    exact absurd hrevh (by simp)
  · rw [hrev] at hrevh
    have hx : x = d := by
      simp only [List.head?_cons, Option.some.injEq] at hrevh
      exact hrevh
    rw [List.dropWhile_cons_of_neg (by rw [hx]; exact hdh), ← hrev,
      List.reverse_reverse]

theorem digitChar_props (k : Nat) (hk : k < 10) :
    (digitChar k).isWhitespace = false ∧ (digitChar k).toLower ≠ 'j'
      ∧ digitChar k ≠ backquote := by
  interval_cases k <;> exact ⟨by decide, by decide, by decide⟩

theorem natDigits_head (n : Nat) :
    ∃ k t, natDigits n = digitChar k :: t ∧ k < 10 := by
  induction n using Nat.strong_induction_on with
  | _ n ih =>
    by_cases h : n < 10
    · rw [natDigits, dif_pos h]
      exact ⟨n, [], rfl, h⟩
    · rw [natDigits, dif_neg h]
      obtain ⟨k, t, heq, hk⟩ := ih (n / 10) (Nat.div_lt_self (by omega) (by omega))
      rw [heq, List.cons_append]
      exact ⟨k, t ++ [digitChar (n % 10)], rfl, hk⟩

theorem natDigits_last (n : Nat) :
    ∃ k, (natDigits n).getLast? = some (digitChar k) ∧ k < 10 := by
  rw [natDigits]
  by_cases h : n < 10
  · rw [dif_pos h]
    exact ⟨n, rfl, h⟩
  · rw [dif_neg h]
    exact ⟨n % 10, List.getLast?_concat _, Nat.mod_lt _ (by omega)⟩

theorem renderJson_head (v : Json) :
    ∃ c t, renderJson v = c :: t ∧ c.isWhitespace = false ∧ c.toLower ≠ 'j'
      ∧ c ≠ backquote := by
  cases v with
  | null => exact ⟨'n', _, rfl, by decide, by decide, by decide⟩
  | bool b =>
    cases b with
    | false => exact ⟨'f', _, rfl, by decide, by decide, by decide⟩
    | true => exact ⟨'t', _, rfl, by decide, by decide, by decide⟩
  | num i =>
    show ∃ c t, intChars i = c :: t ∧ _
    rw [intChars]
    by_cases h : i < 0
    · rw [if_pos h]
      exact ⟨'-', _, rfl, by decide, by decide, by decide⟩
    · rw [if_neg h]
      obtain ⟨k, t, heq, hk⟩ := natDigits_head i.natAbs
      obtain ⟨p1, p2, p3⟩ := digitChar_props k hk
      exact ⟨digitChar k, t, heq, p1, p2, p3⟩
  | str s => exact ⟨'\"', _, rfl, by decide, by decide, by decide⟩
  | arr xs => exact ⟨'[', _, rfl, by decide, by decide, by decide⟩
  | obj fs => exact ⟨lcurly, _, rfl, by decide, by decide, by decide⟩

theorem renderJson_last (v : Json) :
    ∃ d, (renderJson v).getLast? = some d ∧ d.isWhitespace = false := by
  cases v with
  | null => exact ⟨'l', rfl, by decide⟩
  | bool b =>
    cases b with
    | false => exact ⟨'e', rfl, by decide⟩
    | true => exact ⟨'e', rfl, by decide⟩
  | num i =>
    show ∃ d, (intChars i).getLast? = some d ∧ _
    rw [intChars]
    by_cases h : i < 0
    · rw [if_pos h]
      obtain ⟨k, t, heq, hk⟩ := natDigits_head i.natAbs
      obtain ⟨k2, hlast, hk2⟩ := natDigits_last i.natAbs
      refine ⟨digitChar k2, ?_, (digitChar_props k2 hk2).1⟩
      rw [heq]
      rw [heq] at hlast
      rw [List.getLast?_cons_cons]
      exact hlast
    · rw [if_neg h]
      obtain ⟨k2, hlast, hk2⟩ := natDigits_last i.natAbs
      exact ⟨digitChar k2, hlast, (digitChar_props k2 hk2).1⟩
  | str s =>
    refine ⟨'\"', ?_, by decide⟩
    show ('\"' :: (escapeChars s.toList ++ ['\"'])).getLast? = _
    rw [← List.cons_append, List.getLast?_concat]
  | arr xs =>
    refine ⟨']', ?_, by decide⟩
    show ('[' :: (renderElems xs ++ [']'])).getLast? = _
    rw [← List.cons_append, List.getLast?_concat]
  | obj fs =>
    refine ⟨rcurly, ?_, by decide⟩
    show (lcurly :: (renderFields fs ++ [rcurly])).getLast? = _
    rw [← List.cons_append, List.getLast?_concat]

theorem isPrefixOf_cons_ne {a b : Char} (la lb : List Char) (h : b ≠ a) :
    List.isPrefixOf (a :: la) (b :: lb) = false := by
  have : ¬ (a :: la) <+: (b :: lb) := by
    intro hpre
    rcases hpre with ⟨r, hr⟩
    rw [List.cons_append] at hr
    injection hr with h1 _
    exact h h1.symm
  rcases hb : List.isPrefixOf (a :: la) (b :: lb) with _ | _
  · rfl
  · exact absurd ( List.isPrefixOf_iff_prefix.mp hb) this

theorem cleanTailFence (p : List Char) :
    (if List.isSuffixOf fenceChars (p ++ fenceChars) then
        (p ++ fenceChars).take ((p ++ fenceChars).length - 3)
      else p ++ fenceChars) = p := by
  rw [if_pos (List.isSuffixOf_iff_suffix.mpr ⟨p, rfl⟩)]
  have hlen : (p ++ fenceChars).length - 3 = p.length := by
    simp [fenceChars]
  rw [hlen]
  exact List.take_left p fenceChars

theorem fencedHeadTag_ne (p : List Char)
    (hph : ∀ c t, p = c :: t → c.toLower ≠ 'j') :
    ((p ++ fenceChars).take 4).map Char.toLower ≠ jsonTagChars := by
  rcases p with _ | ⟨c, t⟩
  · decide
  · intro h
    rw [List.cons_append, List.take_succ_cons, List.map_cons] at h
    have hc : c.toLower = 'j' := by
      have h2 := congrArg List.head? h
      simpa [jsonTagChars] using h2
    exact hph c t rfl hc

theorem cleanJsonString_fenced (p ws1 ws2 f : List Char)
    (hf : f = fenceChars ∨ f = fenceChars ++ jsonTagChars)
    (hw1 : ∀ x ∈ ws1, x.isWhitespace)
    (hw2 : ∀ x ∈ ws2, x.isWhitespace)
    (hph : ∀ c t, p = c :: t → c.toLower ≠ 'j') :
    cleanJsonString (ws1 ++ (f ++ (p ++ fenceChars)) ++ ws2) = p := by
  have hfne : f ++ (p ++ fenceChars) ≠ [] := by
    rcases hf with rfl | rfl <;> simp [fenceChars]
  have hne : ws1 ++ (f ++ (p ++ fenceChars)) ++ ws2 ≠ [] := by
    intro h
    rcases List.append_eq_nil.mp h with ⟨h1, _⟩
    rcases List.append_eq_nil.mp h1 with ⟨_, h3⟩
    exact hfne h3
  obtain ⟨tc, hcore⟩ : ∃ tc, f ++ (p ++ fenceChars) = backquote :: tc := by
    rcases hf with rfl | rfl
    · exact ⟨[backquote, backquote] ++ (p ++ fenceChars), rfl⟩
    · exact ⟨([backquote, backquote] ++ jsonTagChars) ++ (p ++ fenceChars), rfl⟩
  have hlast : (f ++ (p ++ fenceChars)).getLast? = some backquote := by
    have hsplit : f ++ (p ++ fenceChars) =
        (f ++ (p ++ [backquote, backquote])) ++ [backquote] := by
      simp [fenceChars, List.append_assoc]
    rw [hsplit, List.getLast?_concat]
  have htrim : trimChars (ws1 ++ (f ++ (p ++ fenceChars)) ++ ws2) =
      f ++ (p ++ fenceChars) :=
    trimChars_sandwich _ ws1 ws2 backquote backquote tc hcore (by decide)
      hlast (by decide) hw1 hw2
  rw [cleanJsonString, if_neg hne]
  simp only [htrim]
  have hpre : List.isPrefixOf fenceChars (f ++ (p ++ fenceChars)) = true := by
    rcases hf with rfl | rfl
    · exact List.isPrefixOf_iff_prefix.mpr ⟨p ++ fenceChars, rfl⟩
    · exact List.isPrefixOf_iff_prefix.mpr
        ⟨jsonTagChars ++ (p ++ fenceChars), by simp [List.append_assoc]⟩
  rw [if_pos hpre]
  rcases hf with rfl | rfl
  · have hdrop : (fenceChars ++ (p ++ fenceChars)).drop 3 = p ++ fenceChars :=
      List.drop_left fenceChars (p ++ fenceChars)
    rw [hdrop, if_neg (fencedHeadTag_ne p hph)]
    exact cleanTailFence p
  · have hassoc : (fenceChars ++ jsonTagChars) ++ (p ++ fenceChars) =
        fenceChars ++ (jsonTagChars ++ (p ++ fenceChars)) := by
      rw [List.append_assoc]
    rw [hassoc]
    have hdrop : (fenceChars ++ (jsonTagChars ++ (p ++ fenceChars))).drop 3 =
        jsonTagChars ++ (p ++ fenceChars) :=
      List.drop_left fenceChars _
    rw [hdrop]
    have htake : (jsonTagChars ++ (p ++ fenceChars)).take 4 = jsonTagChars :=
      List.take_left jsonTagChars _
    rw [htake]
    have hmap : List.map Char.toLower jsonTagChars = jsonTagChars := by decide
    have hdrop4 : (jsonTagChars ++ (p ++ fenceChars)).drop 4 = p ++ fenceChars :=
      List.drop_left jsonTagChars _
    rw [if_pos hmap, hdrop4]
    exact cleanTailFence p

theorem cleanJsonString_render (v : Json) :
    cleanJsonString (renderJson v) = renderJson v := by
  obtain ⟨c, t, heq, hws, _, hbq⟩ := renderJson_head v
  obtain ⟨d, hlast, hdws⟩ := renderJson_last v
  have hne : renderJson v ≠ [] := by
    rw [heq]
    exact List.cons_ne_nil c t
  have htrim : trimChars (renderJson v) = renderJson v := by
    have h := trimChars_sandwich (renderJson v) [] [] c d t heq
      (by simp [hws]) hlast (by simp [hdws])
      (by intro x hx; cases hx) (by intro x hx; cases hx)
    simpa using h
  have hnp : List.isPrefixOf fenceChars (renderJson v) = false := by
    rw [heq]
    exact isPrefixOf_cons_ne _ _ hbq
  rw [cleanJsonString, if_neg hne]
  simp [htrim, hnp]

/-- C7: for every valid structured payload (the rendering of a JSON value)
wrapped in a leading ``` or ```json fence and a trailing ``` fence, possibly
surrounded by whitespace, the sanitizer recovers exactly the unfenced
payload, so parsing the sanitized fenced text gives the same parsed result
as parsing the unfenced payload directly. -/
theorem sanitizer_fence_transparent (v : Json) (f ws1 ws2 : List Char)
    (hf : f = fenceChars ∨ f = fenceChars ++ jsonTagChars)
    (hw1 : ∀ x ∈ ws1, x.isWhitespace)
    (hw2 : ∀ x ∈ ws2, x.isWhitespace) :
    cleanJsonString (ws1 ++ (f ++ (renderJson v ++ fenceChars)) ++ ws2) =
      renderJson v
    ∧ parseJson
        (cleanJsonString (ws1 ++ (f ++ (renderJson v ++ fenceChars)) ++ ws2)) =
      parseJson (renderJson v) := by
  have hph : ∀ c t, renderJson v = c :: t → c.toLower ≠ 'j' := by
    intro c t h
    obtain ⟨c2, t2, heq, _, hj, _⟩ := renderJson_head v
    rw [heq] at h
    have hc : c2 = c := by
      injection h with h1 _
    rw [← hc]
    exact hj
  have h1 := cleanJsonString_fenced (renderJson v) ws1 ws2 f hf hw1 hw2 hph
  exact ⟨h1, by rw [h1]⟩

def witnessJson : Json := Json.obj [("a", Json.str "b")]

theorem sanitizer_fence_transparent_witness :
    cleanJsonString
        ([' '] ++ ((fenceChars ++ jsonTagChars) ++
          (renderJson witnessJson ++ fenceChars)) ++ ['\n', ' ']) =
      renderJson witnessJson
    ∧ parseJson
        (cleanJsonString
          ([' '] ++ ((fenceChars ++ jsonTagChars) ++
            (renderJson witnessJson ++ fenceChars)) ++ ['\n', ' '])) =
      parseJson (renderJson witnessJson) := by
  exact sanitizer_fence_transparent witnessJson (fenceChars ++ jsonTagChars)
    [' '] ['\n', ' '] (Or.inr rfl) (by decide) (by decide)

/-! ## Response handling of the generation operations
(src/services/geminiService.ts:414-420 and 532-538) -/

def storyboardParseErrorMsg : String :=
  "Failed to parse storyboard JSON. The model output might be malformed or truncated."

def promptsParseErrorMsg : String := "Failed to parse prompts JSON"

def emptyText : String := ""

/-- The argument the callers hand to the sanitizer: `result.text || "{}"`
(`none` models an absent `text`; the empty string is falsy in JS). -/
def textOrEmptyObj : Option String → List Char
  | none => emptyObjChars
  | some s => if s = emptyText then emptyObjChars else s.toList

/-- The response-handling tail of `generateStoryboard`
(geminiService.ts:414-420): sanitize, `JSON.parse`, and on a parse throw
raise the operation's error message.  No field validation is performed on
the parsed value. -/
def generateStoryboardResult (responseText : Option String) :
    Except String Json :=
  match parseJson (cleanJsonString (textOrEmptyObj responseText)) with
  | some v => Except.ok v
  | none => Except.error storyboardParseErrorMsg

/-- The response-handling tail of `generatePromptsForGroup`
(geminiService.ts:532-538). -/
def generatePromptsForGroupResult (responseText : Option String) :
    Except String Json :=
  match parseJson (cleanJsonString (textOrEmptyObj responseText)) with
  | some v => Except.ok v
  | none => Except.error promptsParseErrorMsg

def jsonHasField (v : Json) (key : String) : Bool :=
  match v with
  | Json.obj fs => fs.any (fun f => f.1 == key)
  | _ => false

/-- The `required` keys of `promptSchema` (geminiService.ts:94-102). -/
def promptRequiredKeys : List String := ["groupId", "imagePrompts", "cameraPrompts"]

/-- The `required` keys of `storyboardSchema` (geminiService.ts:69-77). -/
def storyboardRequiredKeys : List String := ["script", "groups", "settings"]

/-- C10: an empty or absent upstream response text is replaced by the
literal empty-object string before parsing, so the script-generation and
prompt-generation operations return the empty object — which has none of
their required fields — as a success rather than raising a parse or
validation error. -/
theorem empty_response_yields_empty_object_success :
    generatePromptsForGroupResult none = Except.ok (Json.obj [])
    ∧ generatePromptsForGroupResult (some emptyText) = Except.ok (Json.obj [])
    ∧ generateStoryboardResult none = Except.ok (Json.obj [])
    ∧ generateStoryboardResult (some emptyText) = Except.ok (Json.obj [])
    ∧ (∀ key ∈ promptRequiredKeys, jsonHasField (Json.obj []) key = false)
    ∧ (∀ key ∈ storyboardRequiredKeys, jsonHasField (Json.obj []) key = false) := by
  exact ⟨rfl, rfl, rfl, rfl, fun key _ => rfl, fun key _ => rfl⟩

def keyGroupId : String := "groupId"

theorem empty_response_yields_empty_object_success_witness :
    generatePromptsForGroupResult none = Except.ok (Json.obj [])
    ∧ jsonHasField (Json.obj []) keyGroupId = false := by
  have h := empty_response_yields_empty_object_success
  exact ⟨h.1, h.2.2.2.2.1 keyGroupId (by decide)⟩

def emptyObjText : String := "\x7b\x7d"

/-- C4 counterexample: the two-character empty-object response parses but
misses every required field of the prompt operation's expected shape, yet
the operation returns it as a success — no distinguishable validation error
is raised. -/
theorem missing_fields_not_rejected :
    generatePromptsForGroupResult (some emptyObjText) = Except.ok (Json.obj [])
    ∧ jsonHasField (Json.obj []) "groupId" = false
    ∧ jsonHasField (Json.obj []) "imagePrompts" = false
    ∧ jsonHasField (Json.obj []) "cameraPrompts" = false := by
  exact ⟨rfl, rfl, rfl, rfl⟩

/-- C4 amended: a payload that fails to parse raises the operation's
distinguishable parse error, while any payload that parses — even one
missing required fields of the expected shape — is returned as a success
without validation. -/
theorem parse_failure_raises_distinguishable_error (t : Option String) :
    (parseJson (cleanJsonString (textOrEmptyObj t)) = none →
      generatePromptsForGroupResult t = Except.error promptsParseErrorMsg)
    ∧ ∀ v, parseJson (cleanJsonString (textOrEmptyObj t)) = some v →
        generatePromptsForGroupResult t = Except.ok v := by
  constructor
  · intro h
    rw [generatePromptsForGroupResult, h]
  · intro v h
    rw [generatePromptsForGroupResult, h]

def notJsonText : String := "not json"

theorem parse_failure_raises_distinguishable_error_witness :
    generatePromptsForGroupResult (some notJsonText) =
      Except.error promptsParseErrorMsg := by
  exact (parse_failure_raises_distinguishable_error (some notJsonText)).1 rfl

end Jimeng
